import Mathlib

/-!
Verification development for the ID-scanner repository.

The field-extraction engine (`extract_student_info` in `IDscan.py`) is embedded
shallowly below: Python strings become `List Char`, the three regular-expression
searches (`re.search`) are implemented directly as left-to-right scans with the
word-boundary semantics of the patterns in the source, and the imperative
per-line loop becomes a fold over line indices carrying an explicit state.
Character classes (`\w`, `\d`, `.upper()`, `.isalpha()`, ...) are modelled at
the ASCII level, which is exact for every input the claims quantify over.
The preprocessing pipeline (`preprocess_image`) delegates its pixel arithmetic
to an external imaging library; those stages are modelled from the spec where
noted, keeping the stage structure, parameters and value ranges.
-/

/-- Python whitespace set used by `str.strip` / `str.split` / regex `\s` (ASCII). -/
def pyIsSpace (c : Char) : Bool :=
  c = ' ' || c = '\t' || c = '\n' || c = '\r' || c = '\x0b' || c = '\x0c'

/-- Word character for regex `\b` boundaries (`[A-Za-z0-9_]`, ASCII view of `\w`). -/
def isWordChar (c : Char) : Bool :=
  c.isAlphanum || c = '_'

/-- `str.strip()` on a character list. -/
def pyStripList (l : List Char) : List Char :=
  ((l.dropWhile pyIsSpace).reverse.dropWhile pyIsSpace).reverse

/-- Split a string at every newline, like Python `text.split('\n')`. -/
def splitNlAux (cur : List Char) : List Char → List (List Char)
  | [] => [cur.reverse]
  | c :: rest => if c = '\n' then cur.reverse :: splitNlAux [] rest else splitNlAux (c :: cur) rest

def pySplitLines (s : String) : List (List Char) :=
  splitNlAux [] s.toList

/-- `str.upper()` (ASCII). -/
def pyUpper (l : List Char) : List Char :=
  l.map Char.toUpper

/-- `str.split()` with no separator: maximal runs of non-whitespace. -/
def pySplitWsAux (cur : List Char) : List Char → List (List Char)
  | [] => if cur.isEmpty then [] else [cur.reverse]
  | c :: rest =>
    if pyIsSpace c then
      if cur.isEmpty then pySplitWsAux [] rest else cur.reverse :: pySplitWsAux [] rest
    else pySplitWsAux (c :: cur) rest

def pySplitWs (l : List Char) : List (List Char) :=
  pySplitWsAux [] l

/-- `str.title()` (ASCII): a letter after a non-letter is uppercased, other letters lowercased. -/
def pyTitleAux (prevCased : Bool) : List Char → List Char
  | [] => []
  | c :: rest =>
    if c.isAlpha then (if prevCased then c.toLower else c.toUpper) :: pyTitleAux true rest
    else c :: pyTitleAux false rest

def pyTitle (l : List Char) : List Char :=
  pyTitleAux false l

/-- `str.replace(pat, "")`: delete every non-overlapping occurrence of `pat`, left to right.
Fuel-driven structural recursion; `fuel = l.length` always suffices. -/
def pyRemoveAllAux (pat : List Char) : Nat → List Char → List Char
  | 0, l => l
  | _ + 1, [] => []
  | fuel + 1, c :: rest =>
    if !pat.isEmpty && pat.isPrefixOf (c :: rest) then
      pyRemoveAllAux pat fuel (rest.drop (pat.length - 1))
    else c :: pyRemoveAllAux pat fuel rest

def pyRemoveAll (pat l : List Char) : List Char :=
  pyRemoveAllAux pat l.length l

/-- Substring containment, Python `needle in hay`. -/
def listContains (hay needle : List Char) : Bool :=
  match hay with
  | [] => needle.isEmpty
  | _ :: rest => needle.isPrefixOf hay || listContains rest needle

/-- Everything after the first `:` of the line (used under a `':' in line` guard). -/
def afterFirstColon (l : List Char) : List Char :=
  (l.dropWhile (fun c => c ≠ ':')).drop 1

/-- `str.isalpha()`: nonempty and every character alphabetic. -/
def pyIsAlphaStr (l : List Char) : Bool :=
  !l.isEmpty && l.all Char.isAlpha

/-- A word boundary to the left of a match that starts with a word character:
start of string, or previous character not a word character. -/
def leftBoundary (prev : Option Char) : Bool :=
  match prev with
  | none => true
  | some p => !isWordChar p

/-- A word boundary to the right of a match that ends with a word character:
end of string, or next character not a word character. -/
def rightBoundary : List Char → Bool
  | [] => true
  | c :: _ => !isWordChar c

/-- `re.search(r'\b\d{4}-\d{2}\b', ...)` attempted at one position. -/
def stuAt (prev : Option Char) (l : List Char) : Option (List Char) :=
  match l with
  | d1 :: d2 :: d3 :: d4 :: h :: e1 :: e2 :: rest =>
    if d1.isDigit && d2.isDigit && d3.isDigit && d4.isDigit && h = '-' &&
        e1.isDigit && e2.isDigit && leftBoundary prev && rightBoundary rest then
      some [d1, d2, d3, d4, h, e1, e2]
    else none
  | _ => none

def searchStuAux (prev : Option Char) : List Char → Option (List Char)
  | [] => none
  | c :: rest =>
    match stuAt prev (c :: rest) with
    | some m => some m
    | none => searchStuAux (some c) rest

/-- `re.search(student_no_pattern, line)`: leftmost whole-word `dddd-dd` token. -/
def searchStudentNo (l : List Char) : Option (List Char) :=
  searchStuAux none l

/-- `re.search(r'\d{4}-\d{2}', s)` without word boundaries, as a Bool. -/
def looseStuCheck (l : List Char) : Bool :=
  match l with
  | d1 :: d2 :: d3 :: d4 :: h :: e1 :: e2 :: _ =>
    d1.isDigit && d2.isDigit && d3.isDigit && d4.isDigit && h = '-' && e1.isDigit && e2.isDigit
  | _ => false

def hasLooseStuToken : List Char → Bool
  | [] => false
  | c :: rest => looseStuCheck (c :: rest) || hasLooseStuToken rest

/-- `re.search(r'\d{4}', s)` as a Bool. -/
def fourDigitCheck (l : List Char) : Bool :=
  match l with
  | a :: b :: c :: d :: _ => a.isDigit && b.isDigit && c.isDigit && d.isDigit
  | _ => false

def has4Digits : List Char → Bool
  | [] => false
  | c :: rest => fourDigitCheck (c :: rest) || has4Digits rest

def upperAZ (c : Char) : Bool :=
  'A' ≤ c && c ≤ 'Z'

/-- Take exactly `k` uppercase letters, returning them and the remainder. -/
def azTake : Nat → List Char → Option (List Char × List Char)
  | 0, rest => some ([], rest)
  | _ + 1, [] => none
  | k + 1, c :: rest =>
    if upperAZ c then (azTake k rest).map (fun p => (c :: p.1, p.2)) else none

/-- `[A-Z]{k}\b` for a fixed `k`. -/
def tryAZk (k : Nat) (l : List Char) : Option (List Char) :=
  match azTake k l with
  | some (w, r) => if rightBoundary r then some w else none
  | none => none

/-- Greedy `[A-Z]{2,4}\b`: lengths 4, 3, 2 in that order. -/
def tryAZrun (l : List Char) : Option (List Char) :=
  match tryAZk 4 l with
  | some w => some w
  | none =>
    match tryAZk 3 l with
    | some w => some w
    | none => tryAZk 2 l

/-- One alternation branch `pre[A-Z]{2,4}\b` of the course pattern. -/
def tryCourseBranch (pre l : List Char) : Option (List Char) :=
  if pre.isPrefixOf l then (tryAZrun (l.drop pre.length)).map (fun w => pre ++ w) else none

/-- The course alternation `BS…|BA…|AB…|BSC…` attempted at one position. -/
def courseAt (prev : Option Char) (l : List Char) : Option (List Char) :=
  if leftBoundary prev then
    match tryCourseBranch ['B', 'S'] l with
    | some m => some m
    | none =>
      match tryCourseBranch ['B', 'A'] l with
      | some m => some m
      | none =>
        match tryCourseBranch ['A', 'B'] l with
        | some m => some m
        | none => tryCourseBranch ['B', 'S', 'C'] l
  else none

def searchCourseAux (prev : Option Char) : List Char → Option (List Char)
  | [] => none
  | c :: rest =>
    match courseAt prev (c :: rest) with
    | some m => some m
    | none => searchCourseAux (some c) rest

/-- `re.search(course_pattern, line_upper)`: leftmost whole-word course token. -/
def searchCourse (l : List Char) : Option (List Char) :=
  searchCourseAux none l

def yearKeywords : List (List Char) :=
  [['F', 'I', 'R', 'S', 'T'], ['S', 'E', 'C', 'O', 'N', 'D'],
   ['T', 'H', 'I', 'R', 'D'], ['F', 'O', 'U', 'R', 'T', 'H'],
   ['1', 'S', 'T'], ['2', 'N', 'D'], ['3', 'R', 'D'], ['4', 'T', 'H']]

/-- The year pattern `\b(FIRST|…|4TH)[\s]*YEAR\b` attempted at one position. -/
def yearAt (prev : Option Char) (l : List Char) : Option (List Char) :=
  if leftBoundary prev then
    yearKeywords.findSome? (fun kw =>
      if kw.isPrefixOf l then
        let rest := l.drop kw.length
        let ws := rest.takeWhile pyIsSpace
        let rest2 := rest.drop ws.length
        if (['Y', 'E', 'A', 'R'].isPrefixOf rest2) && rightBoundary (rest2.drop 4) then
          some (kw ++ ws ++ ['Y', 'E', 'A', 'R'])
        else none
      else none)
  else none

def searchYearAux (prev : Option Char) : List Char → Option (List Char)
  | [] => none
  | c :: rest =>
    match yearAt prev (c :: rest) with
    | some m => some m
    | none => searchYearAux (some c) rest

/-- `re.search(year_pattern, line_upper)`: leftmost year phrase, whitespace included. -/
def searchYear (l : List Char) : Option (List Char) :=
  searchYearAux none l

def nameKeywords : List (List Char) :=
  [['N', 'A', 'M', 'E'],
   ['S', 'T', 'U', 'D', 'E', 'N', 'T', ' ', 'N', 'A', 'M', 'E'],
   ['F', 'U', 'L', 'L', ' ', 'N', 'A', 'M', 'E'],
   ['N', 'O', 'M', 'B', 'R', 'E']]

/-- Method 1 for one keyword: same line after `:`, then next line, then the
keyword-stripped remainder of the line, in that order. -/
def strategy1Keyword (lines : List (List Char)) (i : Nat) (line lineUpper kw : List Char) :
    Option (List Char) :=
  if listContains lineUpper kw then
    let a : Option (List Char) :=
      if line.contains ':' then
        let potential := pyStripList (afterFirstColon line)
        if potential.length > 2 then some potential else none
      else none
    match a with
    | some v => some v
    | none =>
      let b : Option (List Char) :=
        if i + 1 < lines.length then
          let potential := pyStripList (lines.getD (i + 1) [])
          if potential.length > 2 && !hasLooseStuToken potential then some potential else none
        else none
      match b with
      | some v => some v
      | none =>
        let cleanLine := pyStripList (pyRemoveAll kw lineUpper)
        if cleanLine.length > 2 then some (pyTitle cleanLine) else none
  else none

/-- Method 1 (keyword-anchored): keywords tried in order, first success wins. -/
def strategy1 (lines : List (List Char)) (i : Nat) (line lineUpper : List Char) :
    Option (List Char) :=
  nameKeywords.findSome? (strategy1Keyword lines i line lineUpper)

/-- Replace every character that is neither a word character nor whitespace by a
space, then strip: the `re.sub` preceding the shape checks. -/
def shapeClean (line : List Char) : List Char :=
  pyStripList (line.map (fun c => if !(isWordChar c || pyIsSpace c) then ' ' else c))

/-- The alphabetic-character count of the line (numerator of the shape fraction). -/
def alphaCount (line : List Char) : Nat :=
  line.countP Char.isAlpha

/-- The shape-heuristic conjuncts that precede the alphabetic-fraction test,
in source order. -/
def shapeCond (line lineUpper : List Char) : Bool :=
  let cleanLine := shapeClean line
  let words := pySplitWs cleanLine
  words.length ≥ 2 && cleanLine.length ≥ 5 && cleanLine.length ≤ 50 &&
    !(searchStudentNo line).isSome && !(searchCourse lineUpper).isSome &&
    !listContains lineUpper ['Y', 'E', 'A', 'R'] && !has4Digits line

/-- The additional name-likeness check of the shape heuristic: a capitalized
word or a word of length above 2. -/
def shapeAccept (line : List Char) : Bool :=
  let words := pySplitWs (shapeClean line)
  words.any (fun w => match w with | c :: _ => c.isUpper | [] => false) ||
    words.any (fun w => w.length > 2)

/-- Method 2 (shape heuristic).  The float comparison
`sum(isalpha)/len(line) > 0.7` is modelled by the exact rational comparison
`10 * alphaCount > 7 * length`, which agrees with the source's floating-point
evaluation at every realizable line length. -/
def strategy2 (line lineUpper : List Char) : Option (List Char) :=
  if line.length > 3 then
    if shapeCond line lineUpper && 10 * alphaCount line > 7 * line.length then
      if shapeAccept line then some (pyStripList line) else none
    else none
  else none

/-- Method 3 (positional heuristic): the previous line contains the student number
found so far, and the current line is digit-free and alphabetic once spaces,
periods and commas are removed. -/
def strategy3 (lines : List (List Char)) (i : Nat) (line studentNo : List Char) :
    Option (List Char) :=
  if !studentNo.isEmpty && i > 0 then
    let prevLine := if i > 0 then lines.getD (i - 1) [] else []
    if listContains prevLine studentNo && line.length > 3 &&
        !line.any Char.isDigit &&
        pyIsAlphaStr (line.filter (fun c => c ≠ ' ' && c ≠ '.' && c ≠ ',')) then
      some (pyStripList line)
    else none
  else none

structure ExtractState where
  student_no : List Char
  name : List Char
  course : List Char
  year : List Char
  name_found : Bool
deriving Repr, DecidableEq

def initState : ExtractState :=
  ⟨[], [], [], [], false⟩

/-- The per-line updates of the three overwrite-on-match fields. -/
def fieldsStep (line : List Char) (st : ExtractState) : ExtractState :=
  { st with
    student_no := (searchStudentNo line).getD st.student_no
    course := (searchCourse (pyUpper line)).getD st.course
    year := (searchYear (pyUpper line)).getD st.year }

/-- The three name strategies of one line, in source order. -/
def resolveName (lines : List (List Char)) (i : Nat) (studentNo : List Char) :
    Option (List Char) :=
  let line := lines.getD i []
  let lineUpper := pyUpper line
  match strategy1 lines i line lineUpper with
  | some n => some n
  | none =>
    match strategy2 line lineUpper with
    | some n => some n
    | none => strategy3 lines i line studentNo

/-- The name part of one loop iteration: skipped entirely once `name_found`. -/
def nameStep (lines : List (List Char)) (i : Nat) (st : ExtractState) : ExtractState :=
  if st.name_found then st
  else
    match resolveName lines i st.student_no with
    | some n => { st with name := n, name_found := true }
    | none => st

/-- One iteration of the `for i, line in enumerate(lines)` loop. -/
def processLine (lines : List (List Char)) (st : ExtractState) (i : Nat) : ExtractState :=
  nameStep lines i (fieldsStep (lines.getD i []) st)

/-- The loop run over the first `k` line indices. -/
def runUpTo (lines : List (List Char)) (k : Nat) : ExtractState :=
  (List.range k).foldl (processLine lines) initState

/-- `lines = [line.strip() for line in text.split('\n') if line.strip()]`. -/
def processLines (text : String) : List (List Char) :=
  ((pySplitLines text).map pyStripList).filter (fun l => !l.isEmpty)

structure ExtractedRecord where
  student_no : String
  name : String
  course : String
  year : String
deriving Repr, DecidableEq

/-- `extract_student_info`: the whole field-extraction engine. -/
def extract_student_info (text : String) : ExtractedRecord :=
  let lines := processLines text
  let st := runUpTo lines lines.length
  ⟨⟨st.student_no⟩, ⟨st.name⟩, ⟨st.course⟩, ⟨st.year⟩⟩

/-- The lines of the input, as the loop sees them, restricted to the first `k` indices. -/
def prefLines (lines : List (List Char)) (k : Nat) : List (List Char) :=
  (List.range k).map (fun i => lines.getD i [])

/-- The value retained by an overwrite-on-match field: the last successful match, or empty. -/
def lastMatchD (f : List Char → Option (List Char)) (ls : List (List Char)) : List Char :=
  ((ls.filterMap f).getLast?).getD []

def strOf (l : List Char) : String :=
  ⟨l⟩

/-- Checked division: `none` exactly when the divisor is zero, the case in which
the source's division would raise `ZeroDivisionError`. -/
def checkedDiv (a b : Nat) : Option ℚ :=
  if b = 0 then none else some ((a : ℚ) / (b : ℚ))

/-- Strategy 2 with its division modelled as fallible: the conjuncts before the
alphabetic fraction are evaluated first (short-circuit order of the source), and
the division is only then attempted. -/
def strategy2E (line lineUpper : List Char) : Except Unit (Option (List Char)) :=
  if line.length > 3 then
    if shapeCond line lineUpper then
      match checkedDiv (alphaCount line) line.length with
      | none => .error ()
      | some frac =>
        .ok (if frac > 7 / 10 then
              (if shapeAccept line then some (pyStripList line) else none)
             else none)
    else .ok none
  else .ok none

/-- The name resolution of one line in the exception-faithful model. -/
def resolveNameE (lines : List (List Char)) (i : Nat) (studentNo : List Char) :
    Except Unit (Option (List Char)) :=
  match strategy1 lines i (lines.getD i []) (pyUpper (lines.getD i [])) with
  | some n => .ok (some n)
  | none =>
    match strategy2E (lines.getD i []) (pyUpper (lines.getD i [])) with
    | .error e => .error e
    | .ok (some n) => .ok (some n)
    | .ok none => .ok (strategy3 lines i (lines.getD i []) studentNo)

/-- One loop iteration in the exception-faithful model. -/
def processLineE (lines : List (List Char)) (st : ExtractState) (i : Nat) :
    Except Unit ExtractState :=
  if (fieldsStep (lines.getD i []) st).name_found then .ok (fieldsStep (lines.getD i []) st)
  else
    match resolveNameE lines i (fieldsStep (lines.getD i []) st).student_no with
    | .error e => .error e
    | .ok (some n) => .ok { fieldsStep (lines.getD i []) st with name := n, name_found := true }
    | .ok none => .ok (fieldsStep (lines.getD i []) st)

/-- The loop over the first `k` line indices in the exception-faithful model. -/
def runUpToE (lines : List (List Char)) (k : Nat) : Except Unit ExtractState :=
  (List.range k).foldl
    (fun acc i =>
      match acc with
      | .error e => .error e
      | .ok st => processLineE lines st i)
    (.ok initState)

/-- The whole extraction engine in the exception-faithful model. -/
def extractE (text : String) : Except Unit ExtractedRecord :=
  match runUpToE (processLines text) (processLines text).length with
  | .error e => .error e
  | .ok st => .ok ⟨⟨st.student_no⟩, ⟨st.name⟩, ⟨st.course⟩, ⟨st.year⟩⟩

/-!
### RegionPreprocessor

`preprocess_image` composes four library calls: grayscale conversion, Gaussian
blur, adaptive threshold and morphological closing.  The pixel arithmetic of
those calls lives in the imaging library, not in this repository, so the
individual stages are modelled from the spec below; the composition order, the
kernel sizes (5×5, 11×11, 2×2), the bias constant 2, the two output levels and
the fail-fast behaviour on an empty region are the program's own contract.
-/

structure BGR where
  b : Nat
  g : Nat
  r : Nat
deriving Repr, DecidableEq

/-- A pixel region: rows of 3-channel samples. -/
abbrev ColorImage := List (List BGR)

/-- A single-channel image: rows of samples. -/
abbrev GrayImage := List (List Nat)

def imgHeight (img : List (List α)) : Nat :=
  img.length

def imgWidth (img : List (List α)) : Nat :=
  (img.headD []).length

/-- The per-row widths of an image, i.e. its full shape. -/
def imgShape (img : List (List α)) : List Nat :=
  img.map List.length

/-- Modelled from the spec: the 3-channel-to-1-channel luminance reduction of
`cv2.cvtColor(image, COLOR_BGR2GRAY)`, fixed-point BT.601 weights. -/
def grayOfBGR (p : BGR) : Nat :=
  (4899 * p.r + 9617 * p.g + 1868 * p.b + 8192) / 16384

def cvtColorBGR2GRAY (img : ColorImage) : GrayImage :=
  img.map (fun row => row.map grayOfBGR)

/-- Clamp an index into `[0, n)` (replicated border). -/
def clampIdx (n : Nat) (i : Int) : Nat :=
  if i < 0 then 0 else if (n : Int) ≤ i then n - 1 else i.toNat

/-- Border-replicated pixel access. -/
def pixAt (img : GrayImage) (y x : Int) : Nat :=
  (img.getD (clampIdx img.length y) []).getD
    (clampIdx (img.getD (clampIdx img.length y) []).length x) 0

/-- Rebuild an image of the same shape whose pixel at `(y, x)` is `f y x`. -/
def mapIdx2 (img : GrayImage) (f : Int → Int → Nat) : GrayImage :=
  (List.range img.length).map (fun y =>
    (List.range ((img.getD y []).length)).map (fun x : Nat => f (y : Int) (x : Int)))

/-- Modelled from the spec: the fixed-point 5-tap Gaussian kernel for kernel
size 5 with standard deviation auto-derived from the kernel size
(0.3·((5−1)·0.5−1)+0.8 = 1.1); the weights sum to 256. -/
def gk5 : List (Int × Nat) :=
  [(-2, 18), (-1, 63), (0, 94), (1, 63), (2, 18)]

/-- Modelled from the spec: `cv2.GaussianBlur(gray, (5, 5), 0)` — separable
5×5 low-pass smoothing with replicated borders and fixed-point rounding. -/
def gaussianBlur5 (img : GrayImage) : GrayImage :=
  mapIdx2 img (fun y x =>
    ((gk5.foldl (fun acc iw =>
        acc + iw.2 * (gk5.foldl (fun acc2 jw =>
          acc2 + jw.2 * pixAt img (y + iw.1) (x + jw.1)) 0)) 0) + 32768) / 65536)

/-- Modelled from the spec: the fixed-point 11-tap Gaussian kernel for kernel
size 11 with standard deviation auto-derived from the kernel size
(0.3·((11−1)·0.5−1)+0.8 = 2.0); the weights sum to 256. -/
def gk11 : List (Int × Nat) :=
  [(-5, 2), (-4, 7), (-3, 17), (-2, 31), (-1, 45), (0, 52),
   (1, 45), (2, 31), (3, 17), (4, 7), (5, 2)]

/-- Modelled from the spec: `cv2.adaptiveThreshold(blurred, 255,
ADAPTIVE_THRESH_GAUSSIAN_C, THRESH_BINARY, 11, 2)` — each pixel is compared
with the Gaussian-weighted mean of its 11×11 neighbourhood offset by the
constant bias 2 and classified into the two levels 255 and 0. -/
def adaptiveThreshold11 (img : GrayImage) : GrayImage :=
  mapIdx2 img (fun y x =>
    if (pixAt img y x : Int) >
        ((gk11.foldl (fun acc iw =>
          acc + iw.2 * (gk11.foldl (fun acc2 jw =>
            acc2 + jw.2 * pixAt img (y + iw.1) (x + jw.1)) 0)) 0) / 65536 : Nat) - 2 then
      255
    else 0)

/-- The sample offsets of the 2×2 structuring element, anchor at (1, 1). -/
def offsets2 : List (Int × Int) :=
  [(-1, -1), (-1, 0), (0, -1), (0, 0)]

/-- Modelled from the spec: dilation with the 2×2 structuring element. -/
def dilate2 (img : GrayImage) : GrayImage :=
  mapIdx2 img (fun y x =>
    offsets2.foldl (fun acc d => max acc (pixAt img (y + d.1) (x + d.2))) 0)

/-- Modelled from the spec: erosion with the 2×2 structuring element. -/
def erode2 (img : GrayImage) : GrayImage :=
  mapIdx2 img (fun y x =>
    offsets2.foldl (fun acc d => min acc (pixAt img (y + d.1) (x + d.2))) 255)

/-- `cv2.morphologyEx(thresh, MORPH_CLOSE, kernel)` with one iteration:
dilation, then erosion. -/
def morphClose2 (img : GrayImage) : GrayImage :=
  erode2 (dilate2 img)

inductive PreprocError where
  | emptyInput
deriving Repr, DecidableEq

/-- `preprocess_image`: grayscale, blur, adaptive threshold, closing, in that
order, each stage consuming the previous stage's output.  Modelled from the
spec: a zero-area region is rejected up front with a distinct error kind (in
the source the first library call raises on an empty input and the function
propagates that failure). -/
def preprocess_image (img : ColorImage) : Except PreprocError GrayImage :=
  if imgHeight img = 0 || imgWidth img = 0 then .error .emptyInput
  else
    let gray := cvtColorBGR2GRAY img
    let blurred := gaussianBlur5 gray
    let thresh := adaptiveThreshold11 blurred
    let cleaned := morphClose2 thresh
    .ok cleaned

/-- Every pixel of the image is one of the two output levels. -/
def TwoValued (img : GrayImage) : Prop :=
  ∀ row ∈ img, ∀ v ∈ row, v = 0 ∨ v = 255

example : searchStudentNo "id 1234-56 x".toList = some "1234-56".toList := by decide

example : searchStudentNo "12345-67".toList = none := by decide

example : searchCourse "BSIT".toList = some "BSIT".toList := by decide

example : searchCourse "JUAN DELA CRUZ".toList = none := by decide

example : searchYear "SECOND YEAR".toList = some "SECOND YEAR".toList := by decide

example : hasLooseStuToken "123.45".toList = false := by decide

example :
    extract_student_info "1234-56\nNAME: John Smith\nBSIT\nSECOND YEAR" =
      ⟨"1234-56", "John Smith", "BSIT", "SECOND YEAR"⟩ := by decide

example :
    extract_student_info "1234-56\nJuan Dela Cruz" = ⟨"1234-56", "Juan Dela Cruz", "", ""⟩ := by
  decide

example : (extract_student_info "NAME:\n123.45").name = "123.45" := by decide

example : (extract_student_info "Juan Dela Cruz\nNAME: John Smith").name = "Juan Dela Cruz" := by
  decide

example : extract_student_info "" = ⟨"", "", "", ""⟩ := by decide

example : (extract_student_info "1111-11\nx\n2222-22").student_no = "2222-22" := by decide

@[simp] theorem fieldsStep_name (line : List Char) (st : ExtractState) :
    (fieldsStep line st).name = st.name := rfl

@[simp] theorem fieldsStep_name_found (line : List Char) (st : ExtractState) :
    (fieldsStep line st).name_found = st.name_found := rfl

theorem nameStep_student_no (lines : List (List Char)) (i : Nat) (st : ExtractState) :
    (nameStep lines i st).student_no = st.student_no := by
  unfold nameStep
  by_cases h : st.name_found = true
  · simp [h]
  · simp only [Bool.not_eq_true] at h
    cases hr : resolveName lines i st.student_no <;> simp [h, hr]

theorem nameStep_course (lines : List (List Char)) (i : Nat) (st : ExtractState) :
    (nameStep lines i st).course = st.course := by
  unfold nameStep
  by_cases h : st.name_found = true
  · simp [h]
  · simp only [Bool.not_eq_true] at h
    cases hr : resolveName lines i st.student_no <;> simp [h, hr]

theorem nameStep_year (lines : List (List Char)) (i : Nat) (st : ExtractState) :
    (nameStep lines i st).year = st.year := by
  unfold nameStep
  by_cases h : st.name_found = true
  · simp [h]
  · simp only [Bool.not_eq_true] at h
    cases hr : resolveName lines i st.student_no <;> simp [h, hr]

theorem processLine_student_no (lines : List (List Char)) (st : ExtractState) (i : Nat) :
    (processLine lines st i).student_no =
      (searchStudentNo (lines.getD i [])).getD st.student_no := by
  unfold processLine
  rw [nameStep_student_no]
  rfl

theorem processLine_course (lines : List (List Char)) (st : ExtractState) (i : Nat) :
    (processLine lines st i).course =
      (searchCourse (pyUpper (lines.getD i []))).getD st.course := by
  unfold processLine
  rw [nameStep_course]
  rfl

theorem processLine_year (lines : List (List Char)) (st : ExtractState) (i : Nat) :
    (processLine lines st i).year = (searchYear (pyUpper (lines.getD i []))).getD st.year := by
  unfold processLine
  rw [nameStep_year]
  rfl

/-- Once the name is found, a further loop iteration changes neither the name nor the flag. -/
theorem processLine_of_found (lines : List (List Char)) (st : ExtractState) (i : Nat)
    (h : st.name_found = true) :
    (processLine lines st i).name = st.name ∧ (processLine lines st i).name_found = true := by
  unfold processLine nameStep
  simp [h]

theorem runUpTo_succ (lines : List (List Char)) (k : Nat) :
    runUpTo lines (k + 1) = processLine lines (runUpTo lines k) k := by
  simp [runUpTo, List.range_succ]

theorem prefLines_succ (lines : List (List Char)) (k : Nat) :
    prefLines lines (k + 1) = prefLines lines k ++ [lines.getD k []] := by
  simp [prefLines, List.range_succ]

theorem lastMatchD_append (f : List Char → Option (List Char)) (ls : List (List Char))
    (x : List Char) :
    lastMatchD f (ls ++ [x]) = (f x).getD (lastMatchD f ls) := by
  unfold lastMatchD
  rw [List.filterMap_append]
  cases h : f x with
  | none => simp [h]
  | some v => simp [h]

/-- An overwrite-on-match field of the loop state equals the last match over the
lines processed so far. -/
theorem runUpTo_field (lines : List (List Char)) (f : List Char → Option (List Char))
    (proj : ExtractState → List Char)
    (hstep : ∀ st i, proj (processLine lines st i) = (f (lines.getD i [])).getD (proj st))
    (hinit : proj initState = []) (k : Nat) :
    proj (runUpTo lines k) = lastMatchD f (prefLines lines k) := by
  induction k with
  | zero => simpa [runUpTo, prefLines, lastMatchD] using hinit
  | succ k ih =>
    rw [runUpTo_succ, hstep, ih, prefLines_succ, lastMatchD_append]

theorem prefLines_length (lines : List (List Char)) :
    prefLines lines lines.length = lines := by
  unfold prefLines
  induction lines with
  | nil => rfl
  | cons a l ih =>
    rw [List.length_cons, List.range_succ_eq_map, List.map_cons, List.map_map]
    have hc : ((fun i => (a :: l).getD i []) ∘ Nat.succ) = fun i => l.getD i [] := by
      funext i
      simp
    rw [List.getD_cons_zero, hc, ih]

/-- Claim C1: the student-number, course and year fields use last-match-wins
semantics — over the non-empty trimmed lines in top-to-bottom order, each of the
three fields ends up holding the match found on the last line where its pattern
succeeded (so a later successful match unconditionally overwrites an earlier
value); in particular, with valid student-number tokens on an earlier and a
later line, the later token is returned. -/
theorem extract_last_match_wins :
    (∀ text : String,
      (extract_student_info text).student_no =
        strOf (lastMatchD searchStudentNo (processLines text)) ∧
      (extract_student_info text).course =
        strOf (lastMatchD (fun l => searchCourse (pyUpper l)) (processLines text)) ∧
      (extract_student_info text).year =
        strOf (lastMatchD (fun l => searchYear (pyUpper l)) (processLines text))) ∧
    (extract_student_info "1111-11\nx\n2222-22").student_no = "2222-22" := by
  constructor
  · intro text
    refine ⟨?_, ?_, ?_⟩
    · have := runUpTo_field (processLines text) searchStudentNo ExtractState.student_no
        (processLine_student_no (processLines text)) rfl (processLines text).length
      rw [prefLines_length] at this
      exact congrArg strOf this
    · have := runUpTo_field (processLines text) (fun l => searchCourse (pyUpper l))
        ExtractState.course (processLine_course (processLines text)) rfl
        (processLines text).length
      rw [prefLines_length] at this
      exact congrArg strOf this
    · have := runUpTo_field (processLines text) (fun l => searchYear (pyUpper l))
        ExtractState.year (processLine_year (processLines text)) rfl (processLines text).length
      rw [prefLines_length] at this
      exact congrArg strOf this
  · decide

/-- Claim C2: name resolution is first-success-wins with line priority over
strategy priority — once the flag is set after some prefix of the lines, no
later line changes the name; and on the concrete input whose first line
satisfies only the shape heuristic while a later line carries a
keyword anchor, the earlier, Strategy-2 name is retained. -/
theorem name_first_success_wins :
    (∀ (lines : List (List Char)) (k m : Nat), k ≤ m →
      (runUpTo lines k).name_found = true →
      (runUpTo lines m).name = (runUpTo lines k).name ∧
        (runUpTo lines m).name_found = true) ∧
    (extract_student_info "Juan Dela Cruz\nNAME: John Smith").name = "Juan Dela Cruz" ∧
    strategy1 (processLines "Juan Dela Cruz\nNAME: John Smith") 0 "Juan Dela Cruz".toList
      (pyUpper "Juan Dela Cruz".toList) = none ∧
    strategy2 "Juan Dela Cruz".toList (pyUpper "Juan Dela Cruz".toList) =
      some "Juan Dela Cruz".toList ∧
    strategy1 (processLines "Juan Dela Cruz\nNAME: John Smith") 1 "NAME: John Smith".toList
      (pyUpper "NAME: John Smith".toList) = some "John Smith".toList := by
  refine ⟨?_, by decide, by decide, by decide, by decide⟩
  intro lines k m hkm hfound
  induction m with
  | zero =>
    have : k = 0 := Nat.le_zero.mp hkm
    subst this
    exact ⟨rfl, hfound⟩
  | succ m ih =>
    cases Nat.eq_or_lt_of_le hkm with
    | inl heq =>
      subst heq
      exact ⟨rfl, hfound⟩
    | inr hlt =>
      have hkm2 : k ≤ m := Nat.lt_succ_iff.mp hlt
      obtain ⟨h1, h2⟩ := ih hkm2
      rw [runUpTo_succ]
      obtain ⟨h3, h4⟩ := processLine_of_found lines (runUpTo lines m) m h2
      exact ⟨h3.trans h1, h4⟩

/-- Claim C5: the four-line scenario input is extracted into exactly the record
with student number 1234-56, name John Smith, course BSIT and year SECOND YEAR. -/
theorem end_to_end_scenario :
    extract_student_info "1234-56\nNAME: John Smith\nBSIT\nSECOND YEAR" =
      ⟨"1234-56", "John Smith", "BSIT", "SECOND YEAR"⟩ := by
  decide

/-- Claim C6: extraction is a pure, deterministic function of the raw OCR text
alone — equal inputs yield bit-identical four-field records. -/
theorem extract_pure (t1 t2 : String) (h : t1 = t2) :
    extract_student_info t1 = extract_student_info t2 := by
  rw [h]

theorem extract_pure_witness :
    extract_student_info "1234-56\nNAME: John Smith" =
      extract_student_info "1234-56\nNAME: John Smith" :=
  extract_pure "1234-56\nNAME: John Smith" "1234-56\nNAME: John Smith" rfl

/-- Claim C7: an input whose lines are all blank after trimming is extracted
normally into the record whose four fields are all the empty string. -/
theorem extract_all_blank (text : String)
    (h : (pySplitLines text).all (fun l => (pyStripList l).isEmpty) = true) :
    extract_student_info text = ⟨"", "", "", ""⟩ := by
  have hp : processLines text = [] := by
    unfold processLines
    rw [List.filter_eq_nil_iff]
    intro a ha
    rw [List.mem_map] at ha
    obtain ⟨l, hl, rfl⟩ := ha
    have hb := List.all_eq_true.mp h l hl
    simp [hb]
  unfold extract_student_info
  rw [hp]
  rfl

theorem extract_all_blank_witness :
    extract_student_info "  \n\t\n \n" = ⟨"", "", "", ""⟩ :=
  extract_all_blank "  \n\t\n \n" (by decide)

/-- Claim C3 counterexample: on the input whose two trimmed lines are the
keyword line and the digits-and-punctuation line 123.45, extraction returns
that digits-and-punctuation line verbatim as the name (the keyword-anchored
next-line sub-strategy accepts it), so a digits-and-punctuation line can be
the value of the name field. -/
theorem digits_line_as_name_cex :
    (extract_student_info "NAME:\n123.45").name = "123.45" ∧
    processLines "NAME:\n123.45" = ["NAME:".toList, "123.45".toList] ∧
    ("123.45".toList.all (fun c => c.isDigit || c = '.')) = true := by
  refine ⟨by decide, by decide, by decide⟩

theorem filter_sub_all_false {p q : Char → Bool} (l : List Char)
    (h : l.all (fun c => !p c) = true) (a : List Char) (heq : l.filter q = a) :
    a.all p = false ∨ a.isEmpty = true := by
  cases a with
  | nil => exact Or.inr rfl
  | cons x xs =>
    left
    have hx : x ∈ l.filter q := by
      rw [heq]
      exact List.mem_cons_self x xs
    have hxl : x ∈ l := List.mem_of_mem_filter hx
    have := List.all_eq_true.mp h x hxl
    simp only [Bool.not_eq_true'] at this
    simp [this]

/-- Claim C3 amended: a line with no alphabetic character (in particular a line
of digits and punctuation only) is never accepted as a name by the shape
heuristic (Strategy 2) or the positional heuristic (Strategy 3), in any
context; the keyword-anchored strategy, however, can return such a line. -/
theorem digits_line_never_name_strategy23 (line lineUpper : List Char)
    (lines : List (List Char)) (i : Nat) (sn : List Char)
    (h : line.all (fun c => !c.isAlpha) = true) :
    strategy2 line lineUpper = none ∧ strategy3 lines i line sn = none := by
  constructor
  · have ha : alphaCount line = 0 := by
      unfold alphaCount
      rw [List.countP_eq_zero]
      intro a hal
      have := List.all_eq_true.mp h a hal
      simpa using this
    have hfrac : decide (10 * alphaCount line > 7 * line.length) = false := by
      rw [ha]
      exact decide_eq_false (by omega)
    unfold strategy2
    simp only [hfrac, Bool.and_false, Bool.false_and, if_false]
    split <;> rfl
  · have halpha :
        pyIsAlphaStr (line.filter (fun c => c ≠ ' ' && c ≠ '.' && c ≠ ',')) = false := by
      unfold pyIsAlphaStr
      rcases filter_sub_all_false (q := fun c => c ≠ ' ' && c ≠ '.' && c ≠ ',') line h
          (line.filter (fun c => c ≠ ' ' && c ≠ '.' && c ≠ ',')) rfl with hf | hf
      · rw [hf, Bool.and_false]
      · rw [hf]
        simp only [Bool.not_true, Bool.false_and]
    unfold strategy3
    simp only [halpha, Bool.and_false, if_false]
    split <;> rfl

theorem digits_line_never_name_strategy23_witness :
    strategy2 "123.45".toList (pyUpper "123.45".toList) = none ∧
    strategy3 ["NAME:".toList] 1 "123.45".toList [] = none :=
  digits_line_never_name_strategy23 "123.45".toList (pyUpper "123.45".toList)
    ["NAME:".toList] 1 [] (by decide)

/-- Claim C4 counterexample: on the two-line input, the name is indeed
Juan Dela Cruz, but Strategy 2 (the shape heuristic) does accept the line
Juan Dela Cruz, contradicting the claim that Strategies 1 and 2 yield nothing
on that line and that the name comes from Strategy 3. -/
theorem positional_attribution_cex :
    (extract_student_info "1234-56\nJuan Dela Cruz").name = "Juan Dela Cruz" ∧
    strategy2 "Juan Dela Cruz".toList (pyUpper "Juan Dela Cruz".toList) =
      some "Juan Dela Cruz".toList := by
  refine ⟨by decide, by decide⟩

/-- Claim C4 amended: the two-line input is extracted into the record with
student number 1234-56 and name Juan Dela Cruz, and on the name line Strategy 1
yields nothing while Strategy 2 (not Strategy 3) accepts it, so the positional
heuristic is never reached. -/
theorem positional_scenario_amended :
    extract_student_info "1234-56\nJuan Dela Cruz" = ⟨"1234-56", "Juan Dela Cruz", "", ""⟩ ∧
    strategy1 (processLines "1234-56\nJuan Dela Cruz") 1 "Juan Dela Cruz".toList
      (pyUpper "Juan Dela Cruz".toList) = none ∧
    strategy2 "Juan Dela Cruz".toList (pyUpper "Juan Dela Cruz".toList) =
      some "Juan Dela Cruz".toList := by
  refine ⟨by decide, by decide, by decide⟩

/-- Under the guard `len(line) > 3`, the fallible shape heuristic never raises
and agrees with the pure one. -/
theorem strategy2E_ok (line lineUpper : List Char) :
    strategy2E line lineUpper = .ok (strategy2 line lineUpper) := by
  unfold strategy2E strategy2
  by_cases hl : 3 < line.length
  · by_cases hc : shapeCond line lineUpper = true
    · have hb : line.length ≠ 0 := by omega
      have hbq : (0 : ℚ) < (line.length : ℚ) := by
        exact_mod_cast Nat.pos_of_ne_zero hb
      have hiff : ((7 : ℚ) / 10 < (alphaCount line : ℚ) / (line.length : ℚ)) ↔
          (7 * line.length < 10 * alphaCount line) := by
        rw [div_lt_div_iff₀ (by norm_num) hbq]
        constructor
        · intro hq
          have hcast : (7 * line.length : ℚ) < (10 * alphaCount line : ℚ) := by
            linarith
          exact_mod_cast hcast
        · intro hn
          have hcast : (7 * line.length : ℚ) < (10 * alphaCount line : ℚ) := by exact_mod_cast hn
          push_cast at hcast ⊢
          linarith
      simp only [gt_iff_lt, hl, if_true, hc, Bool.true_and, checkedDiv, if_neg hb]
      by_cases hf : 7 * line.length < 10 * alphaCount line
      · have hq := hiff.mpr hf
        simp [hq, hf]
      · have hq : ¬ ((7 : ℚ) / 10 < (alphaCount line : ℚ) / (line.length : ℚ)) :=
          fun x => hf (hiff.mp x)
        simp [hq, hf]
    · simp only [Bool.not_eq_true] at hc
      simp [hl, hc]
  · simp [hl]

theorem resolveNameE_ok (lines : List (List Char)) (i : Nat) (studentNo : List Char) :
    resolveNameE lines i studentNo = .ok (resolveName lines i studentNo) := by
  simp only [resolveNameE, resolveName, strategy2E_ok]
  cases strategy1 lines i (lines.getD i []) (pyUpper (lines.getD i [])) <;>
    cases strategy2 (lines.getD i []) (pyUpper (lines.getD i [])) <;> rfl

theorem processLineE_ok (lines : List (List Char)) (st : ExtractState) (i : Nat) :
    processLineE lines st i = .ok (processLine lines st i) := by
  unfold processLineE processLine nameStep
  rw [resolveNameE_ok]
  by_cases h : (fieldsStep (lines.getD i []) st).name_found = true
  · rw [if_pos h, if_pos h]
  · rw [if_neg h, if_neg h]
    cases resolveName lines i (fieldsStep (lines.getD i []) st).student_no <;> rfl

theorem runUpToE_ok (lines : List (List Char)) (k : Nat) :
    runUpToE lines k = .ok (runUpTo lines k) := by
  induction k with
  | zero => rfl
  | succ k ih =>
    have h1 : runUpToE lines (k + 1) =
        (match runUpToE lines k with
          | .error e => .error e
          | .ok st => processLineE lines st k) := by
      simp [runUpToE, List.range_succ]
    rw [h1, ih]
    show processLineE lines (runUpTo lines k) k = _
    rw [processLineE_ok, runUpTo_succ]

/-- Claim C10: on every input string the extraction engine terminates without
raising an exception and returns four string fields — in the model in which the
shape heuristic's alphabetic-fraction division is fallible (it would fail
exactly on a zero divisor), every run returns ok with exactly the record of the
pure engine, because the division is reached only under the line-length guard,
which forces a non-zero divisor. -/
theorem extract_total_no_exception :
    ∀ text : String, extractE text = .ok (extract_student_info text) := by
  intro text
  unfold extractE extract_student_info
  rw [runUpToE_ok]

theorem range_map_getD_length (l : List (List α)) :
    (List.range l.length).map (fun i => (l.getD i []).length) = l.map List.length := by
  induction l with
  | nil => rfl
  | cons a t ih =>
    rw [List.length_cons, List.range_succ_eq_map, List.map_cons, List.map_map]
    have hc : ((fun i => ((a :: t).getD i []).length) ∘ Nat.succ) =
        fun i => (t.getD i []).length := by
      funext i
      simp
    rw [List.getD_cons_zero, hc, ih, List.map_cons]

theorem imgShape_mapIdx2 (img : GrayImage) (f : Int → Int → Nat) :
    imgShape (mapIdx2 img f) = imgShape img := by
  unfold imgShape mapIdx2
  rw [List.map_map]
  have hc : (List.length ∘ fun y =>
      (List.range ((img.getD y []).length)).map (fun x : Nat => f (y : Int) (x : Int))) =
      fun y => (img.getD y []).length := by
    funext y
    simp only [Function.comp_apply, List.length_map, List.length_range]
  rw [hc, range_map_getD_length]

theorem imgShape_cvtColor (img : ColorImage) :
    imgShape (cvtColorBGR2GRAY img) = imgShape img := by
  unfold imgShape cvtColorBGR2GRAY
  rw [List.map_map]
  have hc : (List.length ∘ fun row => row.map grayOfBGR) = List.length := by
    funext row
    simp
  rw [hc]

theorem mapIdx2_mem {img : GrayImage} {f : Int → Int → Nat} {row : List Nat} {v : Nat}
    (hr : row ∈ mapIdx2 img f) (hv : v ∈ row) : ∃ yi xi : Int, v = f yi xi := by
  unfold mapIdx2 at hr
  rw [List.mem_map] at hr
  obtain ⟨y, -, rfl⟩ := hr
  rw [List.mem_map] at hv
  obtain ⟨x, -, hx⟩ := hv
  exact ⟨(y : Int), (x : Int), hx.symm⟩

theorem two_ite (c : Prop) [Decidable c] :
    (if c then (255 : Nat) else 0) = 0 ∨ (if c then (255 : Nat) else 0) = 255 := by
  by_cases h : c
  · right
    rw [if_pos h]
  · left
    rw [if_neg h]

theorem pixAt_pred (P : Nat → Prop) (img : GrayImage) (y x : Int)
    (himg : ∀ row ∈ img, ∀ v ∈ row, P v) (h0 : P 0) : P (pixAt img y x) := by
  unfold pixAt
  rcases Nat.lt_or_ge (clampIdx img.length y) img.length with hy | hy
  · have hrow : img.getD (clampIdx img.length y) [] ∈ img := by
      rw [List.getD_eq_getElem img [] hy]
      exact List.getElem_mem hy
    rcases Nat.lt_or_ge
        (clampIdx (img.getD (clampIdx img.length y) []).length x)
        (img.getD (clampIdx img.length y) []).length with hx | hx
    · have hval := List.getD_eq_getElem (img.getD (clampIdx img.length y) []) 0 hx
      rw [hval]
      exact himg _ hrow _ (List.getElem_mem hx)
    · rw [List.getD_eq_default _ _ hx]
      exact h0
  · rw [List.getD_eq_default _ _ hy]
    simp only [List.getD_nil]
    exact h0

theorem two_max {a b : Nat} (ha : a = 0 ∨ a = 255) (hb : b = 0 ∨ b = 255) :
    max a b = 0 ∨ max a b = 255 := by
  rcases ha with rfl | rfl <;> rcases hb with rfl | rfl <;> simp

theorem two_min {a b : Nat} (ha : a = 0 ∨ a = 255) (hb : b = 0 ∨ b = 255) :
    min a b = 0 ∨ min a b = 255 := by
  rcases ha with rfl | rfl <;> rcases hb with rfl | rfl <;> simp

theorem adaptiveThreshold11_twoValued (img : GrayImage) :
    TwoValued (adaptiveThreshold11 img) := by
  intro row hr v hv
  obtain ⟨yi, xi, hveq⟩ := mapIdx2_mem hr hv
  rw [hveq]
  exact two_ite _

theorem dilate2_twoValued (img : GrayImage) (h : TwoValued img) : TwoValued (dilate2 img) := by
  intro row hr v hv
  obtain ⟨yi, xi, hveq⟩ := mapIdx2_mem hr hv
  rw [hveq]
  have hp : ∀ a b : Int, pixAt img a b = 0 ∨ pixAt img a b = 255 := fun a b =>
    pixAt_pred (fun v => v = 0 ∨ v = 255) img a b h (Or.inl rfl)
  show (offsets2.foldl (fun acc d => max acc (pixAt img (yi + d.1) (xi + d.2))) 0)
      = 0 ∨ _ = 255
  simp only [offsets2, List.foldl_cons, List.foldl_nil]
  exact two_max (two_max (two_max (two_max (Or.inl rfl) (hp _ _)) (hp _ _)) (hp _ _)) (hp _ _)

theorem erode2_twoValued (img : GrayImage) (h : TwoValued img) : TwoValued (erode2 img) := by
  intro row hr v hv
  obtain ⟨yi, xi, hveq⟩ := mapIdx2_mem hr hv
  rw [hveq]
  have hp : ∀ a b : Int, pixAt img a b = 0 ∨ pixAt img a b = 255 := fun a b =>
    pixAt_pred (fun v => v = 0 ∨ v = 255) img a b h (Or.inl rfl)
  show (offsets2.foldl (fun acc d => min acc (pixAt img (yi + d.1) (xi + d.2))) 255)
      = 0 ∨ _ = 255
  simp only [offsets2, List.foldl_cons, List.foldl_nil]
  exact two_min (two_min (two_min (two_min (Or.inr rfl) (hp _ _)) (hp _ _)) (hp _ _)) (hp _ _)

theorem imgShape_blur (img : GrayImage) : imgShape (gaussianBlur5 img) = imgShape img := by
  unfold gaussianBlur5
  exact imgShape_mapIdx2 _ _

theorem imgShape_thresh (img : GrayImage) :
    imgShape (adaptiveThreshold11 img) = imgShape img := by
  unfold adaptiveThreshold11
  exact imgShape_mapIdx2 _ _

theorem imgShape_dilate (img : GrayImage) : imgShape (dilate2 img) = imgShape img := by
  unfold dilate2
  exact imgShape_mapIdx2 _ _

theorem imgShape_erode (img : GrayImage) : imgShape (erode2 img) = imgShape img := by
  unfold erode2
  exact imgShape_mapIdx2 _ _

/-- Claim C8: on every non-zero-area region the preprocessor applies exactly
grayscale reduction, 5×5 Gaussian smoothing, 11×11 adaptive binarization with
bias 2, and one 2×2 morphological closing, in that order, each stage consuming
the previous stage's output; the result is a single-channel two-valued image of
exactly the input's shape; and the pipeline is deterministic.  The pixel
arithmetic of the four stages is modelled from the spec. -/
theorem preprocess_pipeline (img : ColorImage) (hh : imgHeight img ≠ 0)
    (hw : imgWidth img ≠ 0) :
    preprocess_image img =
      .ok (morphClose2 (adaptiveThreshold11 (gaussianBlur5 (cvtColorBGR2GRAY img)))) ∧
    (∀ out, preprocess_image img = .ok out →
      imgShape out = imgShape img ∧ TwoValued out) ∧
    (∀ img2, img2 = img → preprocess_image img2 = preprocess_image img) := by
  have hcond : (imgHeight img = 0 || imgWidth img = 0) = false := by
    simp [hh, hw]
  have hok : preprocess_image img =
      .ok (morphClose2 (adaptiveThreshold11 (gaussianBlur5 (cvtColorBGR2GRAY img)))) := by
    unfold preprocess_image
    rw [hcond]
    rfl
  refine ⟨hok, ?_, fun img2 h2 => by rw [h2]⟩
  intro out hout
  rw [hok] at hout
  have hout2 : out = morphClose2 (adaptiveThreshold11 (gaussianBlur5 (cvtColorBGR2GRAY img))) := by
    injection hout with h
    exact h.symm
  subst hout2
  constructor
  · unfold morphClose2
    rw [imgShape_erode, imgShape_dilate, imgShape_thresh, imgShape_blur, imgShape_cvtColor]
  · exact erode2_twoValued _ (dilate2_twoValued _ (adaptiveThreshold11_twoValued _))

theorem preprocess_pipeline_witness :
    imgHeight [[BGR.mk 5 9 4]] ≠ 0 ∧ imgWidth [[BGR.mk 5 9 4]] ≠ 0 ∧
    preprocess_image [[BGR.mk 5 9 4]] =
      .ok (morphClose2 (adaptiveThreshold11 (gaussianBlur5 (cvtColorBGR2GRAY [[BGR.mk 5 9 4]])))) :=
  ⟨by decide, by decide, (preprocess_pipeline [[BGR.mk 5 9 4]] (by decide) (by decide)).1⟩

/-- Claim C9: a zero-area region makes the preprocessor fail fast with the
distinct precondition-violation error kind, never a silently returned
degenerate image; every non-zero-area region is processed successfully, with
no other failure mode.  The fail-fast behaviour of the first stage on an empty
input is modelled from the spec. -/
theorem preprocess_fail_fast :
    (∀ img : ColorImage, imgHeight img = 0 ∨ imgWidth img = 0 →
      preprocess_image img = .error .emptyInput) ∧
    (∀ img : ColorImage, imgHeight img ≠ 0 → imgWidth img ≠ 0 →
      ∃ out, preprocess_image img = .ok out) := by
  constructor
  · intro img h
    have hcond : (imgHeight img = 0 || imgWidth img = 0) = true := by
      rcases h with h | h <;> simp [h]
    unfold preprocess_image
    rw [hcond]
    rfl
  · intro img hh hw
    have hcond : (imgHeight img = 0 || imgWidth img = 0) = false := by
      simp [hh, hw]
    refine ⟨morphClose2 (adaptiveThreshold11 (gaussianBlur5 (cvtColorBGR2GRAY img))), ?_⟩
    unfold preprocess_image
    rw [hcond]
    rfl

theorem preprocess_fail_fast_witness :
    preprocess_image ([] : ColorImage) = .error .emptyInput ∧
    ∃ out, preprocess_image [[BGR.mk 5 9 4]] = .ok out :=
  ⟨preprocess_fail_fast.1 [] (Or.inl rfl),
   preprocess_fail_fast.2 [[BGR.mk 5 9 4]] (by decide) (by decide)⟩

theorem name_first_success_wins_witness :
    (runUpTo (processLines "Juan Dela Cruz\nNAME: John Smith") 1).name_found = true ∧
    (runUpTo (processLines "Juan Dela Cruz\nNAME: John Smith") 2).name =
      (runUpTo (processLines "Juan Dela Cruz\nNAME: John Smith") 1).name :=
  ⟨by decide,
   (name_first_success_wins.1 (processLines "Juan Dela Cruz\nNAME: John Smith") 1 2
      (by decide) (by decide)).1⟩
